import Mathlib

/-!
Verification of the SkyDecoder ASTERIX decoder.

This file gives a shallow embedding, in Lean, of the C++ decoder core:
the schema data model (`asterix_types.h`), the byte cursor (`ParseContext`),
the field/item parser (`field_parser.cpp`) and the block/record decoder
(`asterix_decoder.cpp`), together with the CAT002 schema shipped with the
repository (`cat02.xml`), and proves properties of this embedding.

Modelling conventions:
- machine integers are `Nat`/`Int` with explicit `% 2^w` where the C++ code
  performs a narrowing cast; bytes are `Nat` values below 256;
- a C++ `ParseContext` is a raw pointer plus a claimed size.  The embedding
  keeps the real underlying allocation (`mem`), the offset of the context's
  data pointer into it (`base`), the claimed `size` and the cursor `pos`.
  Reading memory beyond `mem` (an out-of-bounds read, undefined behaviour in
  C++) is modelled by an oracle `ext : Nat -> Nat` giving the unknowable
  contents of memory past the end of the allocation; a parse result that
  depends on `ext` is a parse that read out of bounds;
- thrown C++ exceptions are modelled with `Except String`; functions that
  catch all exceptions internally (such as `parse_field`, `parse_data_item`
  and `decode_block`) are total;
- presentation-only metadata that the decoding logic never reads
  (`lsb`, `unit`, `enums` of a field) is omitted from the embedded `Field`;
- bounded C++ loops are embedded with an explicit structural fuel argument
  whose exhaustion branch returns the same value as the loop's own natural
  exit, so that the embedding is extensionally the loop and still evaluates
  inside the kernel.
-/

namespace SkyDecoder

/-- Field type enumeration from `asterix_types.h` (`enum class FieldType`). -/
inductive FieldType where
  | UINT8 | UINT16 | UINT24 | UINT32
  | UINT1 | UINT2 | UINT3 | UINT4 | UINT5 | UINT6 | UINT7 | UINT12 | UINT14
  | INT8 | INT16 | INT24 | INT32
  | BOOL | STRING | BYTES
deriving DecidableEq, Repr

/-- Data item format from `asterix_types.h` (`enum class DataFormat`). -/
inductive DataFormat where
  | FIXED | VARIABLE | EXPLICIT | REPETITIVE
deriving DecidableEq, Repr

/-- Field value variant from `asterix_types.h` (`using FieldValue = std::variant<...>`).
`u8`/`u16`/`u32` carry the unsigned alternatives, `i8`/`i16`/`i32` the signed
ones (as mathematical integers produced by the C++ narrowing casts), `b` the
bool, `s` the string and `bytes` the byte-vector alternative. -/
inductive FieldValue where
  | u8 (v : Nat)
  | u16 (v : Nat)
  | u32 (v : Nat)
  | i8 (v : Int)
  | i16 (v : Int)
  | i32 (v : Int)
  | b (v : Bool)
  | s (v : String)
  | bytes (v : List Nat)
deriving DecidableEq, Repr

/-- Field definition from `asterix_types.h` (`struct Field`), as an inductive
because `extension_fields` nests `Field` inside itself.  The presentation
metadata `lsb`, `unit` and `enums`, which the decoding logic never reads, is
omitted. -/
inductive Field where
  | mk (name : String) (type : FieldType) (bits : Nat) (description : String)
       (encoding : Option String) (condition : Option String)
       (extension_fields : List Field)

/-- Name component of a `Field`. -/
def Field.name : Field → String
  | .mk n _ _ _ _ _ _ => n

/-- Type component of a `Field`. -/
def Field.type : Field → FieldType
  | .mk _ t _ _ _ _ _ => t

/-- Bit width component of a `Field`. -/
def Field.bits : Field → Nat
  | .mk _ _ b _ _ _ _ => b

/-- Description component of a `Field`. -/
def Field.description : Field → String
  | .mk _ _ _ d _ _ _ => d

/-- Encoding component of a `Field`. -/
def Field.encoding : Field → Option String
  | .mk _ _ _ _ e _ _ => e

/-- Condition component of a `Field` (for conditional extensions). -/
def Field.condition : Field → Option String
  | .mk _ _ _ _ _ c _ => c

/-- Extension fields component of a `Field`. -/
def Field.extension_fields : Field → List Field
  | .mk _ _ _ _ _ _ xs => xs

/-- Data item definition from `asterix_types.h` (`struct DataItem`). -/
structure DataItem where
  id : String
  name : String
  definition : String
  format : DataFormat
  length : Option Nat
  fields : List Field

/-- Validation rule from `asterix_types.h` (`struct ValidationRule`). -/
structure ValidationRule where
  field : String
  type : String
  condition : Option String

/-- Category header from `asterix_types.h` (`struct CategoryHeader`). -/
structure CategoryHeader where
  category : Nat
  name : String
  description : String
  version : String
  date : String

/-- Complete ASTERIX category from `asterix_types.h` (`struct AsterixCategory`).
The `std::unordered_map` of data items is embedded as an association list
(only keyed lookup is ever performed on it); the `parsing_rules`, which no
decoding or validation code reads, are omitted. -/
structure AsterixCategory where
  header : CategoryHeader
  uap : List String
  data_items : List (String × DataItem)
  validation_rules : List ValidationRule

/-- Field parsing result from `asterix_types.h` (`struct ParsedField`); the
`unit` member is presentation metadata and omitted like `Field.unit`. -/
structure ParsedField where
  name : String
  value : FieldValue
  description : String
  valid : Bool
  error_message : String
deriving DecidableEq, Repr

/-- Data item parsing result from `asterix_types.h` (`struct ParsedDataItem`). -/
structure ParsedDataItem where
  id : String
  name : String
  fields : List ParsedField
  valid : Bool
  error_message : String
deriving DecidableEq, Repr

/-- Parsed ASTERIX message from `asterix_types.h` (`struct AsterixMessage`).
The `length` member is never assigned nor read by the decoder and is omitted. -/
structure AsterixMessage where
  category : Nat
  data_items : List ParsedDataItem
  valid : Bool
  error_message : String
deriving DecidableEq, Repr

/-- ASTERIX data block from `asterix_types.h` (`struct AsterixBlock`).  In the
C++ struct, `category`, `length` and `valid` have no default member
initializer, and `decode_block` does not assign all of them on all paths; an
unassigned (indeterminate) member is modelled as `none`. -/
structure AsterixBlock where
  category : Option Nat
  length : Option Nat
  valid : Option Bool
  messages : List AsterixMessage
deriving DecidableEq, Repr

/-- Parsing context from `asterix_types.h` (`struct ParseContext`): a raw data
pointer with a claimed `size` and a cursor `position`.  The pointer is
modelled as the real allocation `mem` plus the pointer's offset `base` into
it; `ext` is the oracle for memory beyond the allocation (an access through
`ext` is an out-of-bounds read).  The C++ member `category` is passed
explicitly to the functions that read it instead of being stored here. -/
structure ParseContext where
  mem : List Nat
  ext : Nat → Nat
  base : Nat
  size : Nat
  pos : Nat

/-- Byte that the C++ expression `context.data[i]` reads: from the allocation
when in range, from the unknowable rest of memory otherwise.  Memory holds
bytes, hence the reduction modulo 256. -/
def byteAt (c : ParseContext) (i : Nat) : Nat :=
  (c.mem.getD (c.base + i) (c.ext (c.base + i))) % 256

/-- Bounds check `ParseContext::has_data` (against the claimed size). -/
def ParseContext.has_data (c : ParseContext) (bytes : Nat) : Bool :=
  c.pos + bytes ≤ c.size

/-- Byte read `ParseContext::read_uint8`. -/
def ParseContext.read_uint8 (c : ParseContext) : Except String Nat × ParseContext :=
  if c.has_data 1 then (.ok (byteAt c c.pos), { c with pos := c.pos + 1 })
  else (.error "Insufficient data", c)

/-- Big-endian 16-bit read `ParseContext::read_uint16`. -/
def ParseContext.read_uint16 (c : ParseContext) : Except String Nat × ParseContext :=
  if c.has_data 2 then
    (.ok ((byteAt c c.pos) <<< 8 ||| byteAt c (c.pos + 1)), { c with pos := c.pos + 2 })
  else (.error "Insufficient data", c)

/-- Byte-slice read `ParseContext::read_bytes`. -/
def ParseContext.read_bytes (c : ParseContext) (count : Nat) :
    Except String (List Nat) × ParseContext :=
  if c.has_data count then
    (.ok ((List.range count).map (fun i => byteAt c (c.pos + i))), { c with pos := c.pos + count })
  else (.error "Insufficient data", c)

/-- Loop body of `FieldParser::extract_bits`: MSB-first extraction of
`num_bits` bits starting at `start_bit`, split into byte and bit offset as in
the source.  `i` is the loop counter; the structural fuel equals the
remaining iteration count `num_bits - i`. -/
def extract_bits_loop (data : List Nat) (byte_offset bit_offset num_bits : Nat) :
    Nat → Nat → Nat → Except String Nat
  | 0, _, result => .ok result
  | fuel + 1, i, result =>
    if i < num_bits then
      let current_byte := byte_offset + (bit_offset + i) / 8
      let current_bit := 7 - ((bit_offset + i) % 8)
      if current_byte ≥ data.length then .error "Bit extraction exceeds data size"
      else
        let result1 :=
          if data.getD current_byte 0 &&& (1 <<< current_bit) ≠ 0 then
            result ||| (1 <<< (num_bits - 1 - i))
          else result
        extract_bits_loop data byte_offset bit_offset num_bits fuel (i + 1) result1
    else .ok result

/-- Bit extraction `FieldParser::extract_bits`. -/
def extract_bits (data : List Nat) (start_bit num_bits : Nat) : Except String Nat :=
  if num_bits > 32 then .error "Cannot extract more than 32 bits"
  else extract_bits_loop data (start_bit / 8) (start_bit % 8) num_bits num_bits 0 0

/-- Helper `FieldParser::read_field_bytes`: read the ceil(bits/8) bytes of a
field from the context. -/
def read_field_bytes (field : Field) (context : ParseContext) :
    Except String (List Nat) × ParseContext :=
  context.read_bytes ((field.bits + 7) / 8)

/-- Value of a C++ `static_cast<int8_t>` applied to an unsigned value. -/
def castInt8 (v : Nat) : Int :=
  if v % 256 < 128 then (v % 256 : Int) else (v % 256 : Int) - 256

/-- Value of a C++ `static_cast<int16_t>` applied to an unsigned value. -/
def castInt16 (v : Nat) : Int :=
  if v % 65536 < 32768 then (v % 65536 : Int) else (v % 65536 : Int) - 65536

/-- Value of a C++ `static_cast<int32_t>` applied to an unsigned value. -/
def castInt32 (v : Nat) : Int :=
  if v % 4294967296 < 2147483648 then (v % 4294967296 : Int)
  else (v % 4294967296 : Int) - 4294967296

/-- MSB-first byte unpacking used by the `STRING` and `BYTES` branches of
`FieldParser::convert_raw_value`. -/
def bytes_of_raw (raw : Nat) (num_bytes : Nat) : List Nat :=
  (List.range num_bytes).map (fun i => (raw >>> (8 * (num_bytes - 1 - i))) &&& 0xFF)

/-- ICAO 6-bit alphabet of `FieldParser::decode_6bit_ascii`: the 48 characters
of the C string literal plus its terminating null, since `sizeof` of the C
array is 49 and codes up to 48 index into it. -/
def icao_alphabet : List Char :=
  " ABCDEFGHIJKLMNOPQRSTUVWXYZ     0123456789      ".toList ++ [Char.ofNat 0]

/-- One 6-bit character code of `FieldParser::decode_6bit_ascii`, extracted
MSB-first starting at `bit_pos`. -/
def six_bit_code (data : List Nat) (bit_pos : Nat) : Nat :=
  (List.range 6).foldl
    (fun code i =>
      if data.getD ((bit_pos + i) / 8) 0 &&& (1 <<< (7 - ((bit_pos + i) % 8))) ≠ 0 then
        code ||| (1 <<< (5 - i))
      else code)
    0

/-- Character loop of `FieldParser::decode_6bit_ascii`; leading spaces are
dropped while the accumulated result is empty, as in the source.  The fuel
exhaustion branch returns the accumulator exactly like the loop's own exit. -/
def six_bit_loop (data : List Nat) (total_bits : Nat) : Nat → Nat → List Char → List Char
  | 0, _, acc => acc
  | fuel + 1, bit_pos, acc =>
    if bit_pos + 6 ≤ total_bits then
      let code := six_bit_code data bit_pos
      if code < 49 then
        let ch := icao_alphabet.getD code ' '
        if ch ≠ ' ' ∨ acc ≠ [] then six_bit_loop data total_bits fuel (bit_pos + 6) (acc ++ [ch])
        else six_bit_loop data total_bits fuel (bit_pos + 6) acc
      else six_bit_loop data total_bits fuel (bit_pos + 6) acc
    else acc

/-- String decoding `FieldParser::decode_6bit_ascii` (trailing spaces
removed at the end, as in the source). -/
def decode_6bit_ascii (data : List Nat) : String :=
  let total_bits := data.length * 8
  let chars := six_bit_loop data total_bits (total_bits + 1) 0 []
  String.mk ((chars.reverse.dropWhile (· = ' ')).reverse)

/-- Raw-to-typed conversion `FieldParser::convert_raw_value`.  The signed
branches reproduce the source exactly: the sign test uses the fixed masks
`0x80` / `0x8000` / `0x800000` of the type's nominal width, and the
sign-extension ORs in the fixed high mask before the narrowing cast. -/
def convert_raw_value (raw_value : Nat) (field : Field) : FieldValue :=
  match field.type with
  | .UINT8 | .UINT1 | .UINT2 | .UINT3 | .UINT4 | .UINT5 | .UINT6 | .UINT7 =>
      .u8 (raw_value % 256)
  | .UINT16 | .UINT12 | .UINT14 => .u16 (raw_value % 65536)
  | .UINT24 | .UINT32 => .u32 raw_value
  | .INT8 =>
      if raw_value &&& 0x80 ≠ 0 then .i8 (castInt8 (raw_value ||| 0xFFFFFF00))
      else .i8 (castInt8 raw_value)
  | .INT16 =>
      if raw_value &&& 0x8000 ≠ 0 then .i16 (castInt16 (raw_value ||| 0xFFFF0000))
      else .i16 (castInt16 raw_value)
  | .INT24 =>
      if raw_value &&& 0x800000 ≠ 0 then .i32 (castInt32 (raw_value ||| 0xFF000000))
      else .i32 (castInt32 raw_value)
  | .INT32 => .i32 (castInt32 raw_value)
  | .BOOL => .b (raw_value ≠ 0)
  | .STRING =>
      if field.encoding = some "6bit_ascii" then
        .s (decode_6bit_ascii (bytes_of_raw raw_value ((field.bits + 7) / 8)))
      else .s (toString raw_value)
  | .BYTES => .bytes (bytes_of_raw raw_value ((field.bits + 7) / 8))

/-- First occurrence of the two-character sequence of equal signs in a
character list, as `std::string::find` followed by the two `substr` calls of
`FieldParser::evaluate_condition`: prefix before it and suffix after it. -/
def find_eqeq : List Char → Option (List Char × List Char)
  | [] => none
  | [_] => none
  | a :: b :: rest =>
    if a = '=' ∧ b = '=' then some ([], rest)
    else
      match find_eqeq (b :: rest) with
      | some (pre, post) => some (a :: pre, post)
      | none => none

/-- Whitespace removal of `FieldParser::evaluate_condition`
(`std::remove_if` with `isspace`). -/
def remove_spaces (s : List Char) : List Char :=
  s.filter (fun ch => ¬ (ch = ' ' ∨ ch = '\t' ∨ ch = '\n' ∨ ch = '\r'))

/-- Leading-digits accumulator for `stoi`. -/
def nat_of_digits (ds : List Char) : Nat :=
  ds.foldl (fun a ch => a * 10 + (ch.toNat - 48)) 0

/-- Integer parse modelling `std::stoi`: optional sign, then a maximal
leading digit run; throws `std::invalid_argument` when no digits are found. -/
def stoi (s : List Char) : Except String Int :=
  let signed : Bool × List Char :=
    match s with
    | '-' :: r => (true, r)
    | '+' :: r => (false, r)
    | r => (false, r)
  let ds := signed.2.takeWhile Char.isDigit
  if ds.isEmpty then .error "stoi: invalid argument"
  else .ok (if signed.1 then -(nat_of_digits ds : Int) else (nat_of_digits ds : Int))

/-- Field-list scan of `FieldParser::evaluate_condition`: the first field with
the sought name returns from the `bool` or `uint8_t` alternative; any other
alternative falls through to the next field, as in the source. -/
def eval_cond_fields (field_name expected_value : String) :
    List ParsedField → Except String Bool
  | [] => .ok false
  | f :: rest =>
    if f.name = field_name then
      match f.value with
      | .b v => .ok ((expected_value = "1" ∧ v) ∨ (expected_value = "0" ∧ ¬ v))
      | .u8 v => (stoi expected_value.toList).map (fun n => (v : Int) = n)
      | _ => eval_cond_fields field_name expected_value rest
    else eval_cond_fields field_name expected_value rest

/-- Condition evaluator `FieldParser::evaluate_condition` for conditions of
the shape `name == literal`; anything without the double equal sign is false. -/
def evaluate_condition (condition : String) (fields : List ParsedField) :
    Except String Bool :=
  match find_eqeq condition.toList with
  | none => .ok false
  | some (pre, post) =>
      eval_cond_fields (String.mk (remove_spaces pre)) (String.mk (remove_spaces post)) fields

/-- Single-field parse `FieldParser::parse_field`: read the field's bytes,
extract `bits` bits starting at bit 0 of those bytes, convert; any failure is
caught and recorded on the field. -/
def parse_field (field_def : Field) (context : ParseContext) :
    ParsedField × ParseContext :=
  match read_field_bytes field_def context with
  | (.error e, c1) =>
      ({ name := field_def.name, value := .u8 0, description := field_def.description,
         valid := false, error_message := e }, c1)
  | (.ok field_bytes, c1) =>
      match extract_bits field_bytes 0 field_def.bits with
      | .error e =>
          ({ name := field_def.name, value := .u8 0, description := field_def.description,
             valid := false, error_message := e }, c1)
      | .ok raw =>
          ({ name := field_def.name, value := convert_raw_value raw field_def,
             description := field_def.description, valid := true, error_message := "" }, c1)

/-- Extension-field parse `FieldParser::parse_extension_fields`: each
non-spare extension field is parsed from the item context itself, advancing
it.  The unused `parsed_fields` argument of the C++ function is omitted. -/
def parse_extension_fields (ext_fields : List Field) (context : ParseContext) :
    List ParsedField × ParseContext :=
  match ext_fields with
  | [] => ([], context)
  | f :: rest =>
    if f.name = "spare" then parse_extension_fields rest context
    else
      let r1 := parse_field f context
      let r2 := parse_extension_fields rest r1.2
      (r1.1 :: r2.1, r2.2)

/-- Variable-format length scan of `FieldParser::parse_data_item`: grow
`bytes_to_read` while the low bit (FX) of the last byte in range is set; the
bytes are peeked directly through the data pointer without advancing.  Fuel
exhaustion returns the same error as the scan's own bounds failure, making
the function extensionally the C++ loop for fuel at least `size + 1`. -/
def variable_scan (c : ParseContext) (start_position : Nat) :
    Nat → Nat → Except String Nat
  | 0, _ => .error "Insufficient data for variable length field"
  | fuel + 1, bytes_to_read =>
    if c.has_data bytes_to_read then
      if byteAt c (start_position + bytes_to_read - 1) &&& 0x01 = 0 then .ok bytes_to_read
      else variable_scan c start_position fuel (bytes_to_read + 1)
    else .error "Insufficient data for variable length field"

/-- Length determination switch of `FieldParser::parse_data_item`: how many
bytes the item body has, together with the context state after the switch
(the explicit length byte and the repetition count byte are consumed from the
parent context; the fixed case performs no bounds check). -/
def determine_bytes_to_read (item_def : DataItem) (c : ParseContext) :
    Except String Nat × ParseContext :=
  match item_def.format with
  | .FIXED =>
      match item_def.length with
      | some l => (.ok l, c)
      | none => (.error "Fixed format requires length specification", c)
  | .EXPLICIT =>
      if c.has_data 1 then (.ok (byteAt c c.pos), { c with pos := c.pos + 1 })
      else (.error "Insufficient data for explicit length", c)
  | .REPETITIVE =>
      if c.has_data 1 then
        let rep_count := byteAt c c.pos
        let c1 : ParseContext := { c with pos := c.pos + 1 }
        match item_def.length with
        | some l => (.ok (rep_count * l), c1)
        | none => (.error "Repetitive format requires length specification", c1)
  else (.error "Insufficient data for repetitive length", c)
  | .VARIABLE => (variable_scan c c.pos (c.size + 1) 1, c)

/-- Field loop of `FieldParser::parse_data_item`: spare fields only advance
the bit offset; every other field is parsed from a copy of the item context
positioned at `bit_offset / 8`; a field carrying a condition with extension
fields triggers `parse_extension_fields` on the item context when the
condition evaluates true.  A throw from the condition evaluator is returned
as `some message` with the fields accumulated so far. -/
def parse_item_fields :
    List Field → ParseContext → Nat → List ParsedField →
    List ParsedField × Option String × ParseContext
  | [], item_context, _, acc => (acc, none, item_context)
  | fd :: rest, item_context, bit_offset, acc =>
    if fd.name = "spare" then parse_item_fields rest item_context (bit_offset + fd.bits) acc
    else
      let r := parse_field fd { item_context with pos := bit_offset / 8 }
      let acc1 := acc ++ [r.1]
      if fd.condition.isSome ∧ ¬ fd.extension_fields.isEmpty then
        match evaluate_condition (fd.condition.getD "") acc1 with
        | .error e => (acc1, some e, item_context)
        | .ok true =>
            let ex := parse_extension_fields fd.extension_fields item_context
            parse_item_fields rest ex.2 (bit_offset + fd.bits) (acc1 ++ ex.1)
        | .ok false => parse_item_fields rest item_context (bit_offset + fd.bits) acc1
      else parse_item_fields rest item_context (bit_offset + fd.bits) acc1

/-- Item parse `FieldParser::parse_data_item`: determine the body length,
build the item sub-context over `bytes_to_read` bytes starting at the item
start (claimed size `bytes_to_read`, regardless of how many bytes the parent
really has), run the field loop, and on success advance the parent cursor to
`start_position + bytes_to_read`; any exception leaves the parent cursor
where the reads left it and marks the item invalid. -/
def parse_data_item (item_def : DataItem) (context : ParseContext) :
    ParsedDataItem × ParseContext :=
  let start_position := context.pos
  match determine_bytes_to_read item_def context with
  | (.error e, c1) =>
      ({ id := item_def.id, name := item_def.name, fields := [],
         valid := false, error_message := e }, c1)
  | (.ok bytes_to_read, c1) =>
      let item_context : ParseContext :=
        { mem := c1.mem, ext := c1.ext, base := c1.base + start_position,
          size := bytes_to_read, pos := 0 }
      match parse_item_fields item_def.fields item_context 0 [] with
      | (fields, some e, _) =>
          ({ id := item_def.id, name := item_def.name, fields := fields,
             valid := false, error_message := e }, c1)
      | (fields, none, _) =>
          ({ id := item_def.id, name := item_def.name, fields := fields,
             valid := true, error_message := "" },
           { c1 with pos := start_position + bytes_to_read })

/-- FSPEC loop of `AsterixDecoder::parse_field_specification`: read bytes
until one has its FX bit (bit 0) clear, stopping silently once 16 bytes have
been collected (`while (fspec.size() < 16)`).  The structural fuel exhaustion
branch returns the accumulated bytes exactly like the 16-byte exit, so with
fuel 16 the function is extensionally the C++ do-while loop. -/
def fspec_loop : ParseContext → List Nat → Nat → Except String (List Nat) × ParseContext
  | c, _, 0 => (.ok [], c)
  | c, acc, fuel + 1 =>
    if c.has_data 1 then
      let fspec_byte := byteAt c c.pos
      let c1 : ParseContext := { c with pos := c.pos + 1 }
      let acc1 := acc ++ [fspec_byte]
      if fspec_byte &&& 0x01 = 0 then (.ok acc1, c1)
      else if acc1.length < 16 then fspec_loop c1 acc1 fuel
      else (.ok acc1, c1)
    else (.error "Insufficient data for FSPEC", c)

/-- FSPEC parse `AsterixDecoder::parse_field_specification`. -/
def parse_field_specification (context : ParseContext) :
    Except String (List Nat) × ParseContext :=
  fspec_loop context [] 16

/-- Inner bit walk of `AsterixDecoder::parse_uap_items` over one FSPEC byte:
the bits to examine (7 down to `8 - bits_to_check`), with the break once the
bit index runs past the UAP. -/
def scan_fspec_bits (fspec_byte : Nat) (uap_items : List String) :
    List Nat → Nat → List String × Nat
  | [], bit_index => ([], bit_index)
  | bit :: rest, bit_index =>
    if bit_index ≥ uap_items.length then ([], bit_index)
    else
      let tail := scan_fspec_bits fspec_byte uap_items rest (bit_index + 1)
      if fspec_byte &&& (1 <<< bit) ≠ 0 then (uap_items.getD bit_index "" :: tail.1, tail.2)
      else tail

/-- Byte loop of `AsterixDecoder::parse_uap_items`: every byte contributes its
7 selection bits; the final byte (FX bit 0) contributes all 8 bits, as in the
source (`bits_to_check` is 8 for the last byte, 7 otherwise). -/
def parse_uap_bytes (uap_items : List String) : List Nat → Nat → List String
  | [], _ => []
  | b :: rest, bit_index =>
    let bits_to_check : Nat := if rest.isEmpty then 8 else 7
    let r := scan_fspec_bits b uap_items ((List.range bits_to_check).map (fun k => 7 - k)) bit_index
    r.1 ++ parse_uap_bytes uap_items rest r.2

/-- UAP expansion `AsterixDecoder::parse_uap_items`. -/
def parse_uap_items (fspec : List Nat) (uap_items : List String) : List String :=
  parse_uap_bytes uap_items fspec 0

/-- Item loop of `AsterixDecoder::decode_message_internal`: spare UAP entries
are skipped, an id absent from the category's data items is logged and
skipped, anything else goes through `FieldParser::parse_data_item`. -/
def decode_items (category : AsterixCategory) :
    List String → ParseContext → List ParsedDataItem × ParseContext
  | [], c => ([], c)
  | item_id :: rest, c =>
    if item_id = "spare" then decode_items category rest c
    else
      match category.data_items.lookup item_id with
      | none => decode_items category rest c
      | some item_def =>
          let r := parse_data_item item_def c
          let r2 := decode_items category rest r.2
          (r.1 :: r2.1, r2.2)

/-- Record decode `AsterixDecoder::decode_message_internal`: FSPEC, UAP
expansion, item loop; an FSPEC failure is caught and marks the message
invalid.  The C++ code reads the category through the context's pointer; the
embedding passes it explicitly. -/
def decode_message_internal (category : AsterixCategory) (context : ParseContext) :
    AsterixMessage × ParseContext :=
  match parse_field_specification context with
  | (.error e, c1) =>
      ({ category := category.header.category, data_items := [],
         valid := false, error_message := e }, c1)
  | (.ok fspec, c1) =>
      let present_items := parse_uap_items fspec category.uap
      let r := decode_items category present_items c1
      ({ category := category.header.category, data_items := r.1,
         valid := true, error_message := "" }, r.2)

/-- Message loop of `AsterixDecoder::decode_block`
(`while (context.position < block.length && context.has_data(1))`), with an
explicit structural fuel; `decode_block` runs it with fuel `data.length`,
which the termination theorem below proves is never exhausted with the guard
still true. -/
def decode_loop (category : AsterixCategory) (block_length : Nat) :
    Nat → ParseContext → List AsterixMessage → List AsterixMessage × ParseContext
  | 0, c, acc => (acc, c)
  | fuel + 1, c, acc =>
    if c.pos < block_length ∧ c.has_data 1 then
      let r := decode_message_internal category c
      decode_loop category block_length fuel r.2 (acc ++ [r.1])
    else (acc, c)

/-- Block decode `AsterixDecoder::decode_block` with an explicit fuel for the
message loop.  The category registry `categories` stands for the decoder's
`categories_` map.  On the short-input path only `valid` is assigned; on
every other path `valid` is never assigned at all (the C++ `AsterixBlock`
member is left indeterminate, modelled `none`): the catch block around the
body only logs.  An unsupported category throws inside the try block, so the
header fields are kept and no message is decoded. -/
def decode_block_fuel (fuel : Nat) (categories : List (Nat × AsterixCategory))
    (ext : Nat → Nat) (data : List Nat) : AsterixBlock :=
  if data.length < 3 then
    { category := none, length := none, valid := some false, messages := [] }
  else
    let c0 : ParseContext := { mem := data, ext := ext, base := 0, size := data.length, pos := 0 }
    match c0.read_uint8 with
    | (.error _, _) => { category := none, length := none, valid := none, messages := [] }
    | (.ok cat_num, c1) =>
      match c1.read_uint16 with
      | (.error _, _) =>
          { category := some cat_num, length := none, valid := none, messages := [] }
      | (.ok block_length, c2) =>
        match categories.lookup cat_num with
        | none =>
            { category := some cat_num, length := some block_length,
              valid := none, messages := [] }
        | some category =>
            let r := decode_loop category block_length fuel c2 []
            { category := some cat_num, length := some block_length,
              valid := none, messages := r.1 }

/-- Block decode `AsterixDecoder::decode_block`: the message loop is bounded
by `data.length` iterations, which suffices because each iteration consumes
at least the one FSPEC byte its guard guarantees (proved below). -/
def decode_block (categories : List (Nat × AsterixCategory))
    (ext : Nat → Nat) (data : List Nat) : AsterixBlock :=
  decode_block_fuel data.length categories ext data

/-- Mandatory-rule loop of `AsterixDecoder::validate_mandatory_fields`: in
strict mode a missing mandatory field fails, otherwise it is only logged. -/
def validate_mandatory_loop (strict_validation : Bool) (message : AsterixMessage) :
    List ValidationRule → Bool
  | [] => true
  | rule :: rest =>
    if rule.type = "mandatory" then
      let found := message.data_items.any (fun item => item.id = rule.field)
      if ¬ found ∧ strict_validation then false
      else validate_mandatory_loop strict_validation message rest
    else validate_mandatory_loop strict_validation message rest

/-- Validation `AsterixDecoder::validate_mandatory_fields`. -/
def validate_mandatory_fields (strict_validation : Bool) (message : AsterixMessage)
    (category : AsterixCategory) : Bool :=
  validate_mandatory_loop strict_validation message category.validation_rules

/-- Validation `AsterixDecoder::validate_conditional_fields`: the C++ body
iterates the conditional rules but its only content is a TODO comment; the
function always returns true. -/
def validate_conditional_fields (_message : AsterixMessage)
    (_category : AsterixCategory) : Bool :=
  true

/-- Message validation `AsterixDecoder::validate_message`. -/
def validate_message (strict_validation : Bool)
    (categories : List (Nat × AsterixCategory)) (message : AsterixMessage) : Bool :=
  match categories.lookup message.category with
  | none => false
  | some category =>
    if ¬ validate_mandatory_fields strict_validation message category then false
    else if ¬ validate_conditional_fields message category then false
    else message.valid

/-!
The CAT002 category of the repository's `cat02.xml`, translated entity by
entity through the data model of `asterix_types.h` exactly as declared in the
description file.  Three catalogue entries are unrepresentable in the source's
own data model and are left out of the item map: `I002/070` declares a
`uint10` field, a type absent from `enum class FieldType`, and `I002/SP` /
`I002/RE` declare `bytes` fields without a `bits` attribute, leaving the C++
`Field::bits` member indeterminate.  Their UAP slots remain, so selecting
them hits the decoder's unknown-item path.
-/

/-- Field SAC of item I002/010. -/
def f_sac : Field := .mk "SAC" .UINT8 8 "System Area Code" none none []

/-- Field SIC of item I002/010. -/
def f_sic : Field := .mk "SIC" .UINT8 8 "System Identification Code" none none []

/-- Item I002/010 Data Source Identifier. -/
def i002_010 : DataItem :=
  { id := "I002/010", name := "Data Source Identifier",
    definition := "Identification of the radar station from which the data are received",
    format := .FIXED, length := some 2, fields := [f_sac, f_sic] }

/-- Item I002/000 Message Type. -/
def i002_000 : DataItem :=
  { id := "I002/000", name := "Message Type",
    definition := "Type of transaction",
    format := .FIXED, length := some 1,
    fields := [.mk "MESSAGE_TYPE" .UINT8 8 "Message Type" none none []] }

/-- Item I002/020 Sector Number. -/
def i002_020 : DataItem :=
  { id := "I002/020", name := "Sector Number",
    definition := "Eight most significant bits of the antenna azimuth",
    format := .FIXED, length := some 1,
    fields := [.mk "SECTOR" .UINT8 8 "Antenna azimuth (8 MSB)" none none []] }

/-- Item I002/030 Time of Day. -/
def i002_030 : DataItem :=
  { id := "I002/030", name := "Time of Day",
    definition := "Absolute time stamping expressed as UTC time",
    format := .FIXED, length := some 3,
    fields := [.mk "ToD" .UINT24 24 "Time of Day in seconds" none none []] }

/-- Item I002/041 Antenna Rotation Period. -/
def i002_041 : DataItem :=
  { id := "I002/041", name := "Antenna Rotation Period",
    definition := "Antenna rotation period",
    format := .FIXED, length := some 2,
    fields := [.mk "ARP" .UINT16 16 "Antenna Rotation Period" none none []] }

/-- Item I002/050 Station Configuration Status. -/
def i002_050 : DataItem :=
  { id := "I002/050", name := "Station Configuration Status",
    definition := "Status of vital hardware components",
    format := .VARIABLE, length := none,
    fields := [.mk "FX" .BOOL 1 "Field Extension" none none []] }

/-- Item I002/060 Station Processing Mode. -/
def i002_060 : DataItem :=
  { id := "I002/060", name := "Station Processing Mode",
    definition := "Processing parameters and options",
    format := .VARIABLE, length := none,
    fields := [.mk "FX" .BOOL 1 "Field Extension" none none []] }

/-- Item I002/080 Warning/Error Conditions: the first extension block of the
XML is attached by the loader to the FX field as condition plus extension
fields. -/
def i002_080 : DataItem :=
  { id := "I002/080", name := "Warning/Error Conditions",
    definition := "Warning/error conditions of the radar system",
    format := .VARIABLE, length := none,
    fields :=
      [.mk "WE_VALUE" .UINT7 7 "Warning/error condition value" none none [],
       .mk "FX" .BOOL 1 "Field Extension" none (some "FX==1")
          [.mk "WE_VALUE2" .UINT7 7 "Second warning/error condition value" none none [],
           .mk "FX2" .BOOL 1 "Field Extension" none none []]] }

/-- Item I002/090 Collimation Error. -/
def i002_090 : DataItem :=
  { id := "I002/090", name := "Collimation Error",
    definition := "Averaged range and azimuth difference",
    format := .FIXED, length := some 2,
    fields :=
      [.mk "RANGE_ERROR" .INT8 8 "Range Error" none none [],
       .mk "AZIMUTH_ERROR" .INT8 8 "Azimuth Error" none none []] }

/-- Item I002/100 Dynamic Window - Type 1. -/
def i002_100 : DataItem :=
  { id := "I002/100", name := "Dynamic Window - Type 1",
    definition := "Activation of a selective filtering function",
    format := .FIXED, length := some 8,
    fields :=
      [.mk "RHO_START" .UINT16 16 "Start Range" none none [],
       .mk "RHO_END" .UINT16 16 "End Range" none none [],
       .mk "THETA_START" .UINT16 16 "Start Azimuth" none none [],
       .mk "THETA_END" .UINT16 16 "End Azimuth" none none []] }

/-- The CAT002 category as registered: header, UAP order and validation rules
of `cat02.xml`. -/
def cat002 : AsterixCategory :=
  { header :=
      { category := 2, name := "Monoradar Service Messages",
        description := "Service messages from monoradar stations",
        version := "1.2", date := "2024-03-15" },
    uap :=
      ["I002/010", "I002/000", "I002/020", "I002/030", "I002/041",
       "I002/050", "I002/060", "spare", "I002/070", "I002/100",
       "I002/090", "I002/080", "spare", "I002/SP", "I002/RE"],
    data_items :=
      [("I002/010", i002_010), ("I002/000", i002_000), ("I002/020", i002_020),
       ("I002/030", i002_030), ("I002/041", i002_041), ("I002/050", i002_050),
       ("I002/060", i002_060), ("I002/080", i002_080), ("I002/090", i002_090),
       ("I002/100", i002_100)],
    validation_rules :=
      [⟨"I002/010", "mandatory", none⟩,
       ⟨"I002/000", "mandatory", none⟩,
       ⟨"I002/020", "conditional", some "message_type == 2"⟩,
       ⟨"I002/100", "conditional", some "message_type == 8"⟩,
       ⟨"I002/030", "optional", none⟩,
       ⟨"I002/041", "conditional", some "message_type == 1 || message_type == 2 && sector == 0"⟩,
       ⟨"I002/070", "conditional", some "message_type == 1 || message_type == 2 && sector == 0"⟩,
       ⟨"I002/090", "conditional", some "message_type == 1 || message_type == 2 && sector == 0"⟩] }

/-!
Arithmetic helper lemmas about bit operations, used for the sign-extension
analysis of `convert_raw_value`.
-/

/-- Reducing modulo a power of two commutes with bitwise or. -/
theorem lor_mod_two_pow (a b n : Nat) :
    (a ||| b) % 2 ^ n = a % 2 ^ n ||| b % 2 ^ n := by
  apply Nat.eq_of_testBit_eq
  intro i
  simp [Nat.testBit_or, Bool.and_or_distrib_left]

/-- Bit `w` of a number is its top bit modulo `2 ^ (w + 1)`. -/
theorem testBit_eq_mod_ge (raw w : Nat) :
    raw.testBit w = decide (2 ^ w ≤ raw % 2 ^ (w + 1)) := by
  have h1 : raw.testBit w = (raw % 2 ^ (w + 1)).testBit w := by
    simp
  rw [h1, Nat.testBit_to_div_mod]
  have hvlt : raw % 2 ^ (w + 1) < 2 ^ (w + 1) := Nat.mod_lt _ (Nat.two_pow_pos _)
  have hq2 : raw % 2 ^ (w + 1) / 2 ^ w < 2 := by
    apply Nat.div_lt_of_lt_mul
    calc raw % 2 ^ (w + 1) < 2 ^ (w + 1) := hvlt
    _ = 2 ^ w * 2 := by rw [Nat.pow_succ]
  rw [Nat.mod_eq_of_lt hq2]
  have hiff : raw % 2 ^ (w + 1) / 2 ^ w = 1 ↔ 2 ^ w ≤ raw % 2 ^ (w + 1) := by
    constructor
    · intro h
      have := (Nat.le_div_iff_mul_le (Nat.two_pow_pos w)).mp (Nat.le_of_eq h.symm)
      simpa using this
    · intro h
      have h1le : 1 ≤ raw % 2 ^ (w + 1) / 2 ^ w :=
        (Nat.le_div_iff_mul_le (Nat.two_pow_pos w)).mpr (by simpa using h)
      omega
  simp [hiff]

/-- The fixed-mask sign test of `convert_raw_value` detects whether the value
is at least `2 ^ w` modulo `2 ^ (w + 1)`. -/
theorem and_top_bit (raw w : Nat) :
    (raw &&& 2 ^ w = 0) ↔ raw % 2 ^ (w + 1) < 2 ^ w := by
  rw [Nat.and_two_pow, testBit_eq_mod_ge]
  rcases Nat.lt_or_ge (raw % 2 ^ (w + 1)) (2 ^ w) with h | h
  · simp [Nat.not_le.mpr h, h]
  · simp [h, Nat.not_lt.mpr h, Nat.ne_of_gt (Nat.two_pow_pos w)]

/-- Two's complement reading of the low `w` bits of a raw value: what
sign-extending from width `w` produces. -/
def sign_extend_nominal (w raw : Nat) : Int :=
  if raw % 2 ^ w < 2 ^ (w - 1) then (raw % 2 ^ w : Int) else (raw % 2 ^ w : Int) - 2 ^ w

/-- Instance of `and_top_bit` at the `INT8` mask of `convert_raw_value`. -/
theorem int8_mask_test (raw : Nat) : (raw &&& 128 = 0) ↔ raw % 256 < 128 := by
  have h := and_top_bit raw 7
  norm_num at h
  exact h

/-- Instance of `and_top_bit` at the `INT16` mask of `convert_raw_value`. -/
theorem int16_mask_test (raw : Nat) : (raw &&& 32768 = 0) ↔ raw % 65536 < 32768 := by
  have h := and_top_bit raw 15
  norm_num at h
  exact h

/-- Instance of `and_top_bit` at the `INT24` mask of `convert_raw_value`. -/
theorem int24_mask_test (raw : Nat) : (raw &&& 8388608 = 0) ↔ raw % 16777216 < 8388608 := by
  have h := and_top_bit raw 23
  norm_num at h
  exact h

/-- The high or-mask of the `INT8` branch does not change the low byte. -/
theorem int8_or_mod (raw : Nat) : (raw ||| 0xFFFFFF00) % 256 = raw % 256 := by
  have h := lor_mod_two_pow raw 0xFFFFFF00 8
  norm_num at h
  simpa using h

/-- The high or-mask of the `INT16` branch does not change the low 16 bits. -/
theorem int16_or_mod (raw : Nat) : (raw ||| 0xFFFF0000) % 65536 = raw % 65536 := by
  have h := lor_mod_two_pow raw 0xFFFF0000 16
  norm_num at h
  simpa using h

/-- For a raw value below `2 ^ 24`, the or-mask of the `INT24` branch is plain
addition of `0xFF000000`. -/
theorem int24_or_add (raw : Nat) (h : raw < 2 ^ 24) :
    raw ||| 0xFF000000 = 0xFF000000 + raw := by
  have key := Nat.mul_add_lt_is_or h 255
  rw [Nat.or_comm]
  norm_num at key ⊢
  omega

/-- Field declared `int8` with `bits = 4`, for exercising sign extension with
a declared width below the storage width. -/
def c3_field_i8_4 : Field := .mk "E" .INT8 4 "" none none []

/-- Field declared `int8` with `bits = 8` (scenario E2 of the spec). -/
def c3_field_i8_8 : Field := .mk "E" .INT8 8 "" none none []

/-- C3 counterexample: the claim predicts that an `int8` field declared with
`bits = 4` and raw value `0xF` (top declared bit set) decodes to `-1`; the
code only tests bit 7 and returns `15`. -/
theorem c3_counterexample :
    convert_raw_value 0xF c3_field_i8_4 = FieldValue.i8 15 ∧
    convert_raw_value 0xF c3_field_i8_4 ≠ FieldValue.i8 (-1) := by
  decide

/-- C3 (amended): `convert_raw_value` sign-extends from the nominal width of
the field type, not from the declared `bits`: an `INT8` value is the two's
complement reading of the low 8 bits of the raw value, an `INT16` value of
the low 16 bits, and an `INT24` value (for raw values that fit 24 bits) of
the low 24 bits, whatever `bits` the field declares. -/
theorem c3_amended (f : Field) (raw : Nat) :
    (f.type = .INT8 → convert_raw_value raw f = .i8 (sign_extend_nominal 8 raw)) ∧
    (f.type = .INT16 → convert_raw_value raw f = .i16 (sign_extend_nominal 16 raw)) ∧
    (f.type = .INT24 → raw < 2 ^ 24 →
      convert_raw_value raw f = .i32 (sign_extend_nominal 24 raw)) := by
  refine ⟨fun ht => ?_, fun ht => ?_, fun ht hlt => ?_⟩
  · simp only [convert_raw_value, ht]
    split_ifs with hb
    · have h8 : ¬ raw % 256 < 128 := fun hc => hb ((int8_mask_test raw).mpr hc)
      have hOM := int8_or_mod raw
      congr 1
      simp only [castInt8, sign_extend_nominal]
      norm_num
      all_goals split_ifs <;> omega
    · exact rfl
  · simp only [convert_raw_value, ht]
    split_ifs with hb
    · have h16 : ¬ raw % 65536 < 32768 := fun hc => hb ((int16_mask_test raw).mpr hc)
      have hOM := int16_or_mod raw
      congr 1
      simp only [castInt16, sign_extend_nominal]
      norm_num
      all_goals split_ifs <;> omega
    · exact rfl
  · have hraw : raw % 16777216 = raw := Nat.mod_eq_of_lt (by norm_num at hlt ⊢; omega)
    simp only [convert_raw_value, ht]
    split_ifs with hb
    · have h24 : ¬ raw % 16777216 < 8388608 := fun hc => hb ((int24_mask_test raw).mpr hc)
      congr 1
      rw [int24_or_add raw hlt]
      simp only [castInt32, sign_extend_nominal]
      norm_num
      all_goals split_ifs <;> omega
    · have h24 : raw % 16777216 < 8388608 := (int24_mask_test raw).mp (by omega)
      congr 1
      simp only [castInt32, sign_extend_nominal]
      norm_num
      all_goals split_ifs <;> omega

/-- C3 witness: scenario E2 through the amended theorem, raw byte `0xFF` of
an `int8` field with `bits = 8` decodes to `-1`. -/
theorem c3_amended_witness :
    convert_raw_value 0xFF c3_field_i8_8 = FieldValue.i8 (sign_extend_nominal 8 0xFF) ∧
    sign_extend_nominal 8 0xFF = -1 :=
  ⟨(c3_amended c3_field_i8_8 0xFF).1 rfl, by decide⟩

/-!
Concrete inputs for the end-to-end and boundary scenarios.  The oracle
`fun _ => 0` stands for arbitrary memory contents beyond each buffer; a
result is independent of it exactly when no out-of-bounds read happened.
-/

/-- Scenario E1 input block: category 2, declared length 22, five records. -/
def c1Input : List Nat :=
  [0x02, 0x00, 0x16, 0xF0, 0x00, 0x10, 0x01, 0x00, 0x12, 0x34, 0x56, 0x78,
   0x9A, 0xBC, 0x00, 0x00, 0x00, 0x00, 0x00, 0x00, 0x00, 0x00]

/-- C1: with CAT002 registered, decoding the E1 block yields exactly five
records with exactly the claimed items and field values: record 1 holds
I002/010 {SAC 0, SIC 0x10}, I002/000 {1}, I002/020 {0}, I002/030
{raw 0x123456 = 1193046}; record 2 holds I002/000 {0x9A}, I002/020 {0xBC},
I002/030 {0}, I002/041 {0}; records 3 to 5 hold no items. -/
theorem c1_cat002_multirecord_decode :
    (decode_block [(2, cat002)] (fun _ => 0) c1Input).messages.map
      (fun m => m.data_items.map (fun it => (it.id, it.fields.map (fun f => (f.name, f.value))))) =
    [[("I002/010", [("SAC", .u8 0x00), ("SIC", .u8 0x10)]),
      ("I002/000", [("MESSAGE_TYPE", .u8 0x01)]),
      ("I002/020", [("SECTOR", .u8 0x00)]),
      ("I002/030", [("ToD", .u32 1193046)])],
     [("I002/000", [("MESSAGE_TYPE", .u8 0x9A)]),
      ("I002/020", [("SECTOR", .u8 0xBC)]),
      ("I002/030", [("ToD", .u32 0)]),
      ("I002/041", [("ARP", .u16 0)])],
     [], [], []] := by
  decide

/-- Scenario E3 context: the two bytes `0x03 0x02` of a Variable item. -/
def c2Ctx : ParseContext :=
  { mem := [0x03, 0x02], ext := fun _ => 0, base := 0, size := 2, pos := 0 }

/-- C2: parsing the E3 input through item I002/080 consumes the two bytes of
the FX chain, but the FX field at running bit offset 7 is extracted from bit
0 of byte `7 / 8 = 0` (the byte's most significant bit, which is 0), so FX
decodes to false, the extension never triggers, and only one WE value is
produced: fields are not extracted at the running bit offset when that
offset is not a multiple of 8. -/
theorem c2_misaligned_extraction_eval :
    (parse_data_item i002_080 c2Ctx).1.fields.map (fun f => (f.name, f.value)) =
      [("WE_VALUE", .u8 0x01), ("FX", .b false)] ∧
    (parse_data_item i002_080 c2Ctx).2.pos = 2 ∧
    (parse_data_item i002_080 c2Ctx).1.valid = true := by
  decide

/-- Fixed item of declared length 4 with one 32-bit field, for the
out-of-bounds scenario. -/
def c6Item : DataItem :=
  { id := "F4", name := "Fixed4", definition := "", format := .FIXED,
    length := some 4, fields := [.mk "D" .UINT32 32 "" none none []] }

/-- Context holding only two real bytes, parametrized by the contents of
memory beyond the buffer. -/
def c6Ctx (e : Nat → Nat) : ParseContext :=
  { mem := [0xAB, 0xCD], ext := e, base := 0, size := 2, pos := 0 }

/-- C6: a Fixed item whose declared length 4 exceeds the 2 remaining bytes is
not failed with an Underrun; the parser builds a sub-context claiming 4 bytes
over the 2-byte buffer and reads through it: the parsed value depends on
memory beyond the buffer (out-of-bounds read), the item is reported valid,
and the cursor is advanced past the end of the buffer. -/
theorem c6_oob_read_eval :
    (parse_data_item c6Item (c6Ctx (fun _ => 0))).1 ≠
      (parse_data_item c6Item (c6Ctx (fun _ => 0xFF))).1 ∧
    (parse_data_item c6Item (c6Ctx (fun _ => 0))).1.valid = true ∧
    (parse_data_item c6Item (c6Ctx (fun _ => 0))).1.fields.map (fun f => (f.name, f.value)) =
      [("D", .u32 0xABCD0000)] ∧
    (parse_data_item c6Item (c6Ctx (fun _ => 0))).2.pos = 4 := by
  decide

deriving instance DecidableEq for Except

/-- Seventeen-byte FSPEC chain whose first sixteen bytes all have FX set. -/
def c7Ctx : ParseContext :=
  { mem := List.replicate 16 0x01 ++ [0x00], ext := fun _ => 0, base := 0,
    size := 17, pos := 0 }

/-- C7 counterexample: the 17-byte FSPEC chain is not rejected with an error
at the 16-byte ceiling; `parse_field_specification` returns the first sixteen
bytes as a successful result. -/
theorem c7_counterexample :
    (parse_field_specification c7Ctx).1 = Except.ok (List.replicate 16 0x01) := by
  decide

/-- C7 (amended): the FSPEC loop reads bytes while FX is set but stops
silently at the 16-byte ceiling: on the 17-byte chain it succeeds with
exactly the first sixteen bytes, leaving the cursor at 16 so the seventeenth
byte is never consumed as FSPEC. -/
theorem c7_amended :
    (parse_field_specification c7Ctx).1 = Except.ok (List.replicate 16 0x01) ∧
    (parse_field_specification c7Ctx).2.pos = 16 ∧
    (parse_field_specification c7Ctx).2.size = 17 := by
  decide

/-- C8: decoding the header-only block `02 00 03` with CAT002 registered
produces zero records, but the block's `valid` member is never assigned on
this path (`none` models the indeterminate C++ member), rather than being
set to true. -/
theorem c8_uninitialized_valid_eval :
    decode_block [(2, cat002)] (fun _ => 0) [0x02, 0x00, 0x03] =
      { category := some 2, length := some 3, valid := none, messages := [] } := by
  decide

/-- CAT002 message carrying I002/010 and I002/000 with message type 2 (sector
crossing) and no I002/020, the antecedent-satisfying item-lacking input for
the conditional validation rule. -/
def c9Msg : AsterixMessage :=
  { category := 2,
    data_items :=
      [{ id := "I002/010", name := "Data Source Identifier",
         fields :=
           [{ name := "SAC", value := .u8 0, description := "", valid := true, error_message := "" },
            { name := "SIC", value := .u8 1, description := "", valid := true, error_message := "" }],
         valid := true, error_message := "" },
       { id := "I002/000", name := "Message Type",
         fields :=
           [{ name := "MESSAGE_TYPE", value := .u8 2, description := "", valid := true,
              error_message := "" }],
         valid := true, error_message := "" }],
    valid := true, error_message := "" }

/-- C9: `validate_message` passes (even in strict mode) a CAT002 message whose
MESSAGE_TYPE is 2 but which lacks item I002/020, although the category's
conditional rule `message_type == 2` names that item: the conditional
evaluator is a stub that enforces nothing. -/
theorem c9_conditional_stub_eval :
    validate_message true [(2, cat002)] c9Msg = true ∧
    c9Msg.data_items.all (fun it => it.id ≠ "I002/020") = true ∧
    c9Msg.data_items.any
      (fun it => it.fields.any (fun f => f.name = "MESSAGE_TYPE" ∧ f.value = .u8 2)) = true := by
  decide

/-- The field loop of `parse_data_item`, run over fields that carry no
extension condition, never raises, parses exactly one `ParsedField` per
non-spare declared field (one single pass, regardless of any repetition
count), and returns the item context unchanged. -/
theorem parse_item_fields_no_cond (fields : List Field) (ic : ParseContext)
    (off : Nat) (acc : List ParsedField)
    (h : ∀ f ∈ fields, f.condition = none) :
    (parse_item_fields fields ic off acc).2.1 = none ∧
    (parse_item_fields fields ic off acc).1.length =
      acc.length + (fields.filter (fun f => f.name ≠ "spare")).length ∧
    (parse_item_fields fields ic off acc).2.2 = ic := by
  induction fields generalizing ic off acc with
  | nil => simp [parse_item_fields]
  | cons fd rest ih =>
    have hfd : fd.condition = none := h fd (by simp)
    have hrest : ∀ f ∈ rest, f.condition = none := fun f hf => h f (by simp [hf])
    by_cases hs : fd.name = "spare"
    · have := ih ic (off + fd.bits) acc hrest
      simp only [parse_item_fields, hs, if_pos, List.filter_cons]
      simpa [hs] using this
    · have h3 := ih ic (off + fd.bits)
        (acc ++ [(parse_field fd { ic with pos := off / 8 }).1]) hrest
      simp only [List.length_append, List.length_cons, List.length_nil, ne_eq,
        decide_not] at h3
      simp only [parse_item_fields, hs, if_neg, hfd, Option.isSome_none, Bool.false_eq_true,
        false_and, if_false, List.filter_cons, ne_eq, decide_not, decide_False,
        Bool.not_false, if_true, List.length_cons]
      refine ⟨h3.1, ?_, h3.2.2⟩
      have h2 := h3.2.1
      omega

/-- Repetitive item of declared group length 2 with two one-byte fields, the
E4 scenario item. -/
def c4Item : DataItem :=
  { id := "R", name := "Rep", definition := "", format := .REPETITIVE,
    length := some 2, fields := [.mk "G1" .UINT8 8 "" none none [], .mk "G2" .UINT8 8 "" none none []] }

/-- E4 scenario bytes: repetition count 3 followed by three two-byte groups. -/
def c4Ctx : ParseContext :=
  { mem := [0x03, 0xAA, 0xBB, 0xCC, 0xDD, 0xEE, 0xFF], ext := fun _ => 0,
    base := 0, size := 7, pos := 0 }

/-- C4 counterexample: on the E4 input the parser yields a single group whose
first byte is the repetition count itself (`G1 = 3`, `G2 = 0xAA`), not the
three claimed groups, and advances the cursor by `R * L = 6` bytes, not
`1 + R * L = 7`. -/
theorem c4_counterexample :
    (parse_data_item c4Item c4Ctx).1.fields.map (fun f => (f.name, f.value)) =
      [("G1", .u8 0x03), ("G2", .u8 0xAA)] ∧
    (parse_data_item c4Item c4Ctx).2.pos = 6 := by
  decide

/-- C4 (amended): for a Repetitive item of declared length `L` whose fields
carry no extension condition, the parser reads the one-byte repetition count
R, parses the declared field block exactly once (one parsed field per
non-spare declared field) over a sub-context that starts at the count byte,
and advances the parent cursor to `item_start + R * L` (consuming `R * L - 1`
bytes after the count byte). -/
theorem c4_amended (item : DataItem) (c : ParseContext) (L : Nat)
    (hf : item.format = .REPETITIVE) (hl : item.length = some L)
    (hd : c.has_data 1 = true)
    (hc : ∀ f ∈ item.fields, f.condition = none) :
    (parse_data_item item c).1.valid = true ∧
    (parse_data_item item c).2.pos = c.pos + byteAt c c.pos * L ∧
    (parse_data_item item c).1.fields.length =
      (item.fields.filter (fun f => f.name ≠ "spare")).length := by
  have hdet : determine_bytes_to_read item c =
      (.ok (byteAt c c.pos * L), { c with pos := c.pos + 1 }) := by
    simp [determine_bytes_to_read, hf, hl, hd]
  have hpif := parse_item_fields_no_cond item.fields
      { mem := c.mem, ext := c.ext, base := c.base + c.pos,
        size := byteAt c c.pos * L, pos := 0 } 0 [] hc
  rcases hpf : parse_item_fields item.fields
      { mem := c.mem, ext := c.ext, base := c.base + c.pos,
        size := byteAt c c.pos * L, pos := 0 } 0 [] with ⟨flds, exc, ic2⟩
  rw [hpf] at hpif
  obtain ⟨h1, h2, h3⟩ := hpif
  simp only at h1 h2 h3
  subst h1
  simp only [parse_data_item, hdet, hpf, List.length_nil, Nat.zero_add] at *
  exact ⟨trivial, trivial, h2⟩

/-- C4 witness: the amended theorem at the E4 input (count byte 3, group
length 2). -/
theorem c4_amended_witness :
    (parse_data_item c4Item c4Ctx).1.valid = true ∧
    (parse_data_item c4Item c4Ctx).2.pos = c4Ctx.pos + byteAt c4Ctx c4Ctx.pos * 2 ∧
    (parse_data_item c4Item c4Ctx).1.fields.length =
      (c4Item.fields.filter (fun f => f.name ≠ "spare")).length :=
  c4_amended c4Item c4Ctx 2 rfl rfl (by decide) (by decide)

/-- Fixed item of declared length 1 whose first field alone needs two bytes,
so that field extraction fails inside the item. -/
def c5Item : DataItem :=
  { id := "X", name := "Short", definition := "", format := .FIXED,
    length := some 1, fields := [.mk "A" .UINT16 16 "" none none [], .mk "B" .UINT8 8 "" none none []] }

/-- One-byte buffer for the failing-field scenario. -/
def c5Ctx : ParseContext :=
  { mem := [0xFF], ext := fun _ => 0, base := 0, size := 1, pos := 0 }

/-- C5 counterexample: when field A of the item fails with Insufficient data,
the enclosing item is still reported valid, the subsequent field B is still
attempted (and also recorded failed), and the cursor advances to
`item_start + body_length`; the claim says the item is marked invalid and B
is never attempted. -/
theorem c5_counterexample :
    (parse_data_item c5Item c5Ctx).1.valid = true ∧
    (parse_data_item c5Item c5Ctx).1.fields.map (fun f => (f.name, f.valid)) =
      [("A", false), ("B", false)] ∧
    (parse_data_item c5Item c5Ctx).1.fields.map (fun f => f.error_message) =
      ["Insufficient data", "Insufficient data"] ∧
    (parse_data_item c5Item c5Ctx).2.pos = 1 := by
  decide

/-- C5 (amended): for a Fixed item of declared length `L` whose fields carry
no extension condition, a field-level failure is captured on that field only:
the item itself stays valid, every non-spare declared field is attempted (one
parsed field each), and the parent cursor is advanced to
`item_start + body_length` so parsing resumes aligned on the next item. -/
theorem c5_amended (item : DataItem) (c : ParseContext) (L : Nat)
    (hf : item.format = .FIXED) (hl : item.length = some L)
    (hc : ∀ f ∈ item.fields, f.condition = none) :
    (parse_data_item item c).1.valid = true ∧
    (parse_data_item item c).2.pos = c.pos + L ∧
    (parse_data_item item c).1.fields.length =
      (item.fields.filter (fun f => f.name ≠ "spare")).length := by
  have hdet : determine_bytes_to_read item c = (.ok L, c) := by
    simp [determine_bytes_to_read, hf, hl]
  have hpif := parse_item_fields_no_cond item.fields
      { mem := c.mem, ext := c.ext, base := c.base + c.pos, size := L, pos := 0 } 0 [] hc
  rcases hpf : parse_item_fields item.fields
      { mem := c.mem, ext := c.ext, base := c.base + c.pos, size := L, pos := 0 }
      0 [] with ⟨flds, exc, ic2⟩
  rw [hpf] at hpif
  obtain ⟨h1, h2, h3⟩ := hpif
  simp only at h1 h2 h3
  subst h1
  simp only [parse_data_item, hdet, hpf, List.length_nil, Nat.zero_add] at *
  exact ⟨trivial, trivial, h2⟩

/-- C5 witness: the amended theorem at the one-byte scenario input. -/
theorem c5_amended_witness :
    (parse_data_item c5Item c5Ctx).1.valid = true ∧
    (parse_data_item c5Item c5Ctx).2.pos = c5Ctx.pos + 1 ∧
    (parse_data_item c5Item c5Ctx).1.fields.length =
      (c5Item.fields.filter (fun f => f.name ≠ "spare")).length :=
  c5_amended c5Item c5Ctx 1 rfl rfl (by decide)

/-!
Cursor monotonicity: every parsing step preserves the claimed size of the
parent context and never moves its cursor backwards; a record decode whose
guard held moves it forward by at least the one FSPEC byte it read.  These
lemmas bound the message loop of `decode_block`.
-/

/-- The length-determination switch keeps the parent size and never rewinds. -/
theorem determine_bytes_to_read_ctx (item : DataItem) (c : ParseContext) :
    (determine_bytes_to_read item c).2.size = c.size ∧
    c.pos ≤ (determine_bytes_to_read item c).2.pos := by
  rcases item with ⟨i, n, d, fmt, len, flds⟩
  cases fmt <;> cases len <;>
    simp only [determine_bytes_to_read] <;>
    (try split_ifs) <;> simp

/-- `parse_data_item` keeps the parent size and never rewinds the parent
cursor below the item start. -/
theorem parse_data_item_ctx (item : DataItem) (c : ParseContext) :
    (parse_data_item item c).2.size = c.size ∧
    c.pos ≤ (parse_data_item item c).2.pos := by
  have hdet := determine_bytes_to_read_ctx item c
  rcases hd : determine_bytes_to_read item c with ⟨r, c1⟩
  rw [hd] at hdet
  simp only at hdet
  cases r with
  | error e =>
      simp only [parse_data_item, hd]
      exact hdet
  | ok b =>
      rcases hpf : parse_item_fields item.fields
          { mem := c1.mem, ext := c1.ext, base := c1.base + c.pos, size := b, pos := 0 }
          0 [] with ⟨flds, exc, ic2⟩
      cases exc with
      | some e =>
          simp only [parse_data_item, hd, hpf]
          exact hdet
      | none =>
          simp only [parse_data_item, hd, hpf]
          exact ⟨hdet.1, Nat.le_add_right _ _⟩

/-- The FSPEC loop keeps the size, never rewinds, and when at least one byte
is available and fuel is positive it consumes at least one byte. -/
theorem fspec_loop_ctx (fuel : Nat) :
    ∀ (c : ParseContext) (acc : List Nat),
    (fspec_loop c acc fuel).2.size = c.size ∧
    c.pos ≤ (fspec_loop c acc fuel).2.pos ∧
    (c.has_data 1 = true → 0 < fuel → c.pos + 1 ≤ (fspec_loop c acc fuel).2.pos) := by
  induction fuel with
  | zero =>
      intro c acc
      simp [fspec_loop]
  | succ fuel ih =>
      intro c acc
      simp only [fspec_loop]
      by_cases hd : c.has_data 1 = true
      · rw [if_pos hd]
        by_cases hfx : byteAt c c.pos &&& 1 = 0
        · rw [if_pos hfx]
          simp
        · rw [if_neg hfx]
          by_cases hlen : (acc ++ [byteAt c c.pos]).length < 16
          · rw [if_pos hlen]
            have h2 := ih { c with pos := c.pos + 1 } (acc ++ [byteAt c c.pos])
            simp only at h2
            exact ⟨h2.1, by have := h2.2.1; omega, fun _ _ => by have := h2.2.1; omega⟩
          · rw [if_neg hlen]
            simp
      · rw [if_neg hd]
        simpa using hd

/-- `parse_field_specification` keeps the size and, when a byte is available,
consumes at least one byte. -/
theorem parse_field_specification_ctx (c : ParseContext) :
    (parse_field_specification c).2.size = c.size ∧
    c.pos ≤ (parse_field_specification c).2.pos ∧
    (c.has_data 1 = true → c.pos + 1 ≤ (parse_field_specification c).2.pos) := by
  have h := fspec_loop_ctx 16 c []
  exact ⟨h.1, h.2.1, fun hd => h.2.2 hd (by norm_num)⟩

/-- The item loop of a record keeps the size and never rewinds. -/
theorem decode_items_ctx (cat : AsterixCategory) (ids : List String) :
    ∀ c : ParseContext,
    (decode_items cat ids c).2.size = c.size ∧
    c.pos ≤ (decode_items cat ids c).2.pos := by
  induction ids with
  | nil =>
      intro c
      simp [decode_items]
  | cons i rest ih =>
      intro c
      by_cases hs : i = "spare"
      · simpa [decode_items, hs] using ih c
      · cases hlk : cat.data_items.lookup i with
        | none => simpa [decode_items, hs, hlk] using ih c
        | some item =>
            have h1 := parse_data_item_ctx item c
            have h2 := ih (parse_data_item item c).2
            simp only [decode_items, hs, hlk, if_neg]
            exact ⟨h2.1.trans h1.1, h1.2.trans h2.2⟩

/-- A record decode whose guard saw at least one available byte keeps the
size and consumes at least one byte (the first FSPEC byte). -/
theorem decode_message_internal_ctx (cat : AsterixCategory) (c : ParseContext)
    (hd : c.has_data 1 = true) :
    (decode_message_internal cat c).2.size = c.size ∧
    c.pos + 1 ≤ (decode_message_internal cat c).2.pos := by
  have hfs := parse_field_specification_ctx c
  rcases hf : parse_field_specification c with ⟨r, c1⟩
  rw [hf] at hfs
  simp only at hfs
  cases r with
  | error e =>
      simp only [decode_message_internal, hf]
      exact ⟨hfs.1, hfs.2.2 hd⟩
  | ok fspec =>
      have hdi := decode_items_ctx cat (parse_uap_items fspec cat.uap) c1
      simp only [decode_message_internal, hf]
      exact ⟨hdi.1.trans hfs.1, (hfs.2.2 hd).trans hdi.2⟩

/-- Fuel adequacy of the message loop: once the fuel covers the bytes left in
the context, adding more fuel does not change the result, because every
iteration whose guard holds consumes at least one byte. -/
theorem decode_loop_fuel_add (cat : AsterixCategory) (bl : Nat) :
    ∀ (fuel extra : Nat) (c : ParseContext) (acc : List AsterixMessage),
    c.size ≤ c.pos + fuel →
    decode_loop cat bl (fuel + extra) c acc = decode_loop cat bl fuel c acc := by
  intro fuel
  induction fuel with
  | zero =>
      intro extra c acc h
      cases extra with
      | zero => rfl
      | succ e =>
          have hnd : ¬ (c.pos < bl ∧ c.has_data 1 = true) := by
            rintro ⟨h1, h2⟩
            simp only [ParseContext.has_data, decide_eq_true_eq] at h2
            omega
          simp [decode_loop, hnd]
  | succ fuel ih =>
      intro extra c acc h
      have hrw : fuel + 1 + extra = (fuel + extra) + 1 := by omega
      rw [hrw]
      by_cases hg : c.pos < bl ∧ c.has_data 1 = true
      · have hstep := decode_message_internal_ctx cat c hg.2
        simp only [decode_loop, hg, if_pos, and_self, ite_true]
        exact ih extra (decode_message_internal cat c).2
          (acc ++ [(decode_message_internal cat c).1]) (by omega)
      · simp [decode_loop, hg]

/-- The message loop appends at most one message per unit of fuel. -/
theorem decode_loop_length (cat : AsterixCategory) (bl : Nat) :
    ∀ (fuel : Nat) (c : ParseContext) (acc : List AsterixMessage),
    (decode_loop cat bl fuel c acc).1.length ≤ acc.length + fuel := by
  intro fuel
  induction fuel with
  | zero =>
      intro c acc
      simp [decode_loop]
  | succ fuel ih =>
      intro c acc
      by_cases hg : c.pos < bl ∧ c.has_data 1 = true
      · have := ih (decode_message_internal cat c).2 (acc ++ [(decode_message_internal cat c).1])
        simp only [decode_loop, hg, if_pos, and_self, ite_true]
        simp only [List.length_append, List.length_cons, List.length_nil] at this
        omega
      · simp only [decode_loop, hg, ite_false, if_neg]
        omega

/-- `read_uint8` preserves the claimed size of the context. -/
theorem read_uint8_size (c : ParseContext) : (c.read_uint8).2.size = c.size := by
  simp only [ParseContext.read_uint8]
  split_ifs <;> rfl

/-- `read_uint16` preserves the claimed size of the context. -/
theorem read_uint16_size (c : ParseContext) : (c.read_uint16).2.size = c.size := by
  simp only [ParseContext.read_uint16]
  split_ifs <;> rfl

/-- C10: `decode_block` is total and terminating: `data.length` units of fuel
already exhaust the message loop (adding any amount of fuel gives the same
block, because every iteration consumes at least one FSPEC byte and the
cursor never moves backwards across iterations), and the number of decoded
messages is bounded by the length of the input. -/
theorem c10_decode_block_total (categories : List (Nat × AsterixCategory))
    (ext : Nat → Nat) (data : List Nat) (extra : Nat) :
    decode_block_fuel (data.length + extra) categories ext data =
      decode_block categories ext data ∧
    (decode_block categories ext data).messages.length ≤ data.length := by
  rcases h8 : (⟨data, ext, 0, data.length, 0⟩ : ParseContext).read_uint8 with ⟨r8, c8⟩
  have hs8 : c8.size = data.length := by
    have := read_uint8_size (⟨data, ext, 0, data.length, 0⟩ : ParseContext)
    rw [h8] at this
    exact this
  rcases h16 : c8.read_uint16 with ⟨r16, c16⟩
  have hs16 : c16.size = data.length := by
    have := read_uint16_size c8
    rw [h16] at this
    simp only at this
    omega
  unfold decode_block decode_block_fuel
  by_cases hlen : data.length < 3
  · simp [hlen]
  · simp only [if_neg hlen]
    simp only [h8]
    cases r8 with
    | error e => exact ⟨rfl, by simp⟩
    | ok cat_num =>
        simp only [h16]
        cases r16 with
        | error e => exact ⟨rfl, by simp⟩
        | ok block_length =>
            cases hlk : categories.lookup cat_num with
            | none => simp
            | some cat =>
                simp only
                constructor
                · have heq := decode_loop_fuel_add cat block_length data.length extra c16 []
                    (by omega)
                  simp only [AsterixBlock.mk.injEq]
                  exact ⟨trivial, trivial, trivial, congrArg Prod.fst heq⟩
                · have hle := decode_loop_length cat block_length data.length c16 []
                  simpa using hle

end SkyDecoder
